import Mathlib

/-!
Shallow embedding of the shared-dictionary lifecycle subsystem of the
voxtype repository (server/app), together with proofs about the claims of
its specification.

Strings are modelled as lists of characters (abbreviation Str).  Python
functions whose behaviour the claims do not depend on in detail
(unicodedata.normalize and str.casefold in dictionary_normalize.py, and the
three cleanup passes of postprocess.py) are taken as universally quantified
function parameters, so every theorem below holds for every choice of those
functions, in particular for the real ones.
-/

/-- Character-list strings, mirroring Python str for this development. -/
abbrev Str := List Char

/-- Python str.strip(): remove leading and trailing whitespace. -/
def pyStrip (s : Str) : Str :=
  ((s.dropWhile Char.isWhitespace).reverse.dropWhile Char.isWhitespace).reverse

/-- Python str.lower(), modelled character-wise; also used to model the
case-insensitive matching of re.IGNORECASE in postprocess.py. -/
def lowerStr (s : Str) : Str := s.map Char.toLower

/-- listStartsWith t p is true when p is a prefix of t. -/
def listStartsWith : Str → Str → Bool
  | _, [] => true
  | [], _ :: _ => false
  | c :: cs, p :: ps => c == p && listStartsWith cs ps

/-!
Embedding of server/app/services/postprocess.py.  _replace_case_insensitive
passes the replacement string to regex.sub, which treats it as a template:
sre_parse.parse_template expands the known escapes (a backslash before n
becomes a newline, and so on), turns a group-zero reference into the
matched text, keeps a backslash before other non-letter characters, and
raises re.error for a bad escape (a backslash before an unknown ASCII
letter, or a trailing backslash) or for a reference to a group the
re.escape-d pattern does not have; the template is compiled before any
match is attempted, so the error is raised even when the pattern never
occurs.  The raising paths are modelled with Except.
-/

/-- The exception regex.sub raises for an invalid replacement template
(re.error, and the IndexError of an unknown group name). -/
inductive ReError
  | badTemplate
deriving DecidableEq

/-- View of an Except value as a sum, to derive decidable equality. -/
def exceptToSum {ε α : Type} : Except ε α → Sum ε α
  | .error e => .inl e
  | .ok a => .inr a

instance {ε α : Type} [DecidableEq ε] [DecidableEq α] :
    DecidableEq (Except ε α) := fun a b =>
  decidable_of_iff (exceptToSum a = exceptToSum b)
    (by cases a <;> cases b <;> simp [exceptToSum])

/-- One piece of a parsed replacement template: a literal chunk, or a
reference to group 0, the whole match. -/
inductive TItem
  | lit (s : Str)
  | group0
deriving DecidableEq

/-- The known template escapes of sre_parse (backslash before a, b, f, n,
r, t, v, or a second backslash). -/
def escMap (c : Char) : Option Char :=
  if c = 'a' then some (Char.ofNat 7)
  else if c = 'b' then some (Char.ofNat 8)
  else if c = 'f' then some (Char.ofNat 12)
  else if c = 'n' then some (Char.ofNat 10)
  else if c = 'r' then some (Char.ofNat 13)
  else if c = 't' then some (Char.ofNat 9)
  else if c = 'v' then some (Char.ofNat 11)
  else if c = '\\' then some '\\'
  else none

def isOctDigit (c : Char) : Bool := '0' ≤ c && c ≤ '7'

def digitVal (c : Char) : Nat := c.toNat - 48

/-- splitUntilGt s splits s at its first closing angle bracket, as the
template tokenizer's getuntil does for a group name; none when the
bracket never closes. -/
def splitUntilGt : Str → Option (Str × Str)
  | [] => none
  | c :: rest =>
    if c = '>' then some ([], rest)
    else (splitUntilGt rest).map (fun p => (c :: p.1, p.2))

/-- Digit run with single underscores between digits, as Python's int()
accepts in a decimal literal string. -/
def parseIntDigitsGo : Nat → Str → Option Nat
  | acc, [] => some acc
  | _, ['_'] => none
  | acc, '_' :: c :: rest =>
    if c.isDigit then parseIntDigitsGo (acc * 10 + digitVal c) rest
    else none
  | acc, c :: rest =>
    if c.isDigit then parseIntDigitsGo (acc * 10 + digitVal c) rest
    else none

def parseIntDigits : Str → Option Nat
  | [] => none
  | c :: rest =>
    if c.isDigit then parseIntDigitsGo (digitVal c) rest else none

/-- Python int() applied to the group name between the angle brackets:
strip whitespace, optional sign, then decimal digits with single
underscores.  Identifier names never parse as int; for the re.escape-d
pattern, which has no named groups, they hit the unknown-group-name
error. -/
def pyInt (s : Str) : Option Int :=
  match pyStrip s with
  | '+' :: rest => (parseIntDigits rest).map (fun n => (n : Int))
  | '-' :: rest => (parseIntDigits rest).map (fun n => -(n : Int))
  | t => (parseIntDigits t).map (fun n => (n : Int))

/-- Embedding of sre_parse.parse_template for a pattern with no groups
(every dictionary pattern is re.escape-d): expand the known escapes and
octal escapes, keep a backslash before a non-letter non-digit, accept a
group-zero reference, and fail on a bad escape, a trailing backslash, an
octal value beyond 0o377, or any reference to a group other than 0.  The
fuel, called with the length of the string, makes the recursion
structural; every step consumes at least one character. -/
def parseTemplateAux : Nat → Str → Option (List TItem)
  | _, [] => some []
  | 0, _ :: _ => none
  | fuel + 1, c :: rest =>
    if c = '\\' then
      match rest with
      | [] => none
      | 'g' :: rest2 =>
        match rest2 with
        | '<' :: rest3 =>
          (match splitUntilGt rest3 with
          | none => none
          | some (name, rest4) =>
            if name = [] then none
            else if pyInt name = some 0 then
              (parseTemplateAux fuel rest4).map (fun tp => .group0 :: tp)
            else none)
        | _ => none
      | '0' :: rest2 =>
        (match rest2 with
        | d2 :: d3 :: rest3 =>
          if isOctDigit d2 then
            if isOctDigit d3 then
              (parseTemplateAux fuel rest3).map (fun tp =>
                .lit [Char.ofNat (digitVal d2 * 8 + digitVal d3)] :: tp)
            else
              (parseTemplateAux fuel (d3 :: rest3)).map (fun tp =>
                .lit [Char.ofNat (digitVal d2)] :: tp)
          else
            (parseTemplateAux fuel (d2 :: d3 :: rest3)).map (fun tp =>
              .lit [Char.ofNat 0] :: tp)
        | [d2] =>
          if isOctDigit d2 then
            (parseTemplateAux fuel []).map (fun tp =>
              .lit [Char.ofNat (digitVal d2)] :: tp)
          else
            (parseTemplateAux fuel [d2]).map (fun tp =>
              .lit [Char.ofNat 0] :: tp)
        | [] => some [.lit [Char.ofNat 0]])
      | d :: rest2 =>
        if d.isDigit then
          match rest2 with
          | d2 :: rest3 =>
            if d2.isDigit then
              match rest3 with
              | d3 :: rest4 =>
                if isOctDigit d && isOctDigit d2 && isOctDigit d3 then
                  if digitVal d * 64 + digitVal d2 * 8 + digitVal d3
                      ≤ 255 then
                    (parseTemplateAux fuel rest4).map (fun tp =>
                      .lit [Char.ofNat (digitVal d * 64 + digitVal d2 * 8
                        + digitVal d3)] :: tp)
                  else none
                else none
              | [] => none
            else none
          | [] => none
        else
          match escMap d with
          | some ch =>
            (parseTemplateAux fuel rest2).map (fun tp => .lit [ch] :: tp)
          | none =>
            if d.isAlpha then none
            else
              (parseTemplateAux fuel rest2).map (fun tp =>
                .lit ['\\', d] :: tp)
    else
      (parseTemplateAux fuel rest).map (fun tp => .lit [c] :: tp)

def parse_template (s : Str) : Option (List TItem) :=
  parseTemplateAux s.length s

/-- Expansion of a parsed template at one match: literal chunks stay,
group zero becomes the matched text. -/
def expandTemplate (tpl : List TItem) (m : Str) : Str :=
  (tpl.map (fun it =>
    match it with
    | .lit s => s
    | .group0 => m)).flatten

/-- Worker for replace_case_insensitive: scan the text left to right and,
at each leftmost non-overlapping case-insensitive occurrence of pat,
splice the expansion of the parsed replacement template at that match,
as re.sub does.  The fuel argument, always called with at least the
length of the text, makes the recursion structural so that concrete
instances compute; a match consumes at least one character, so the fuel
never runs out. -/
def replaceCIAux (pat : Str) (tpl : List TItem) : Nat → Str → Str
  | _, [] => []
  | 0, t => t
  | fuel + 1, c :: rest =>
    if listStartsWith (lowerStr (c :: rest)) (lowerStr pat) then
      expandTemplate tpl ((c :: rest).take pat.length)
        ++ replaceCIAux pat tpl fuel (rest.drop (pat.length - 1))
    else
      c :: replaceCIAux pat tpl fuel rest

/-- Embedding of postprocess._replace_case_insensitive: an empty pattern
returns the text before any regex work; otherwise regex.sub compiles the
replacement template (error for an invalid one, even when nothing
matches) and replaces every case-insensitive occurrence by the
template's expansion at that match. -/
def replace_case_insensitive (text pattern replacement : Str) :
    Except ReError Str :=
  if pattern = [] then .ok text
  else
    match parse_template replacement with
    | none => .error .badTemplate
    | some tpl => .ok (replaceCIAux pattern tpl text.length text)

/-- Worker for split_on_ci: the segment before the first match, then for
each match the pair of the matched text and the following segment, with
the same fuel discipline as replaceCIAux. -/
def splitCIAux (pat : Str) : Nat → Str → Str × List (Str × Str)
  | _, [] => ([], [])
  | 0, t => (t, [])
  | fuel + 1, c :: rest =>
    if listStartsWith (lowerStr (c :: rest)) (lowerStr pat) then
      let p := splitCIAux pat fuel (rest.drop (pat.length - 1))
      ([], ((c :: rest).take pat.length, p.1) :: p.2)
    else
      let p := splitCIAux pat fuel rest
      (c :: p.1, p.2)

/-- Specification-side view: the text split at its leftmost
non-overlapping case-insensitive occurrences of the pattern, keeping the
matched occurrences. -/
def split_on_ci (text pat : Str) : Str × List (Str × Str) :=
  splitCIAux pat text.length text

/-- Rejoin a split text with the replacement template expanded at every
occurrence. -/
def joinReplacingMatches (tpl : List TItem)
    (p : Str × List (Str × Str)) : Str :=
  p.1 ++ (p.2.map (fun ms => expandTemplate tpl ms.1 ++ ms.2)).flatten

/-- Specification-side definition, following the spec wording that the
replacement is applied to every occurrence of the pattern: split the
text at each leftmost case-insensitive occurrence and rejoin it with the
replacement (its template expansion at that occurrence) in place of
every match; an invalid template is the error outcome, and an empty
pattern never matches. -/
def replace_every_occurrence (text pat repl : Str) : Except ReError Str :=
  if pat = [] then .ok text
  else
    match parse_template repl with
    | none => .error .badTemplate
    | some tpl => .ok (joinReplacingMatches tpl (split_on_ci text pat))

/-- Dictionary entry as consumed by apply_dictionary (pattern and
replacement of a user_dictionary or global_dictionary row). -/
structure DictEntry where
  pattern : Str
  replacement : Str
deriving DecidableEq

/-- Step 3 of apply_dictionary: apply the user entries in order, keeping
the accumulated text and the lowercased patterns already claimed
(applied_patterns in the source); a re.error from regex.sub propagates
and aborts the call. -/
def applyUserEntries :
    List DictEntry → Str × List Str → Except ReError (Str × List Str)
  | [], st => .ok st
  | e :: rest, st =>
    match replace_case_insensitive st.1 e.pattern e.replacement with
    | .error err => .error err
    | .ok t => applyUserEntries rest (t, st.2 ++ [lowerStr e.pattern])

/-- Step 4 of apply_dictionary: apply the global entries whose lowercased
pattern is not claimed by a user entry; a re.error propagates. -/
def applyGlobalEntries (claimed : List Str) :
    List DictEntry → Str → Except ReError Str
  | [], text => .ok text
  | e :: rest, text =>
    if claimed.contains (lowerStr e.pattern) then
      applyGlobalEntries claimed rest text
    else
      match replace_case_insensitive text e.pattern e.replacement with
      | .error err => .error err
      | .ok t => applyGlobalEntries claimed rest t

/-- Embedding of postprocess.apply_dictionary.  The three cleanup passes
(remove_whisper_annotations, remove_fillers, clean_punctuation in the
source, whose replacement strings are hard-coded valid templates) are
taken as function parameters annot, fillers and punct: the claims about
this function hold for every choice of them.  The database reads are
replaced by the two entry lists; a re.error raised by a dictionary
replacement propagates out as the error outcome. -/
def apply_dictionary (annot fillers punct : Str → Str)
    (userEntries globalEntries : List DictEntry) (text : Str) :
    Except ReError Str :=
  if text = [] then .ok text
  else
    match applyUserEntries userEntries (fillers (annot text), []) with
    | .error err => .error err
    | .ok st =>
      match applyGlobalEntries st.2 globalEntries st.1 with
      | .error err => .error err
      | .ok r3 => .ok (punct r3)

theorem joinReplacingMatches_cons (tpl : List TItem) (c : Char) (s : Str)
    (ps : List (Str × Str)) :
    joinReplacingMatches tpl (c :: s, ps)
      = c :: joinReplacingMatches tpl (s, ps) := by
  simp [joinReplacingMatches]

theorem replaceCIAux_eq_join (pat : Str) (tpl : List TItem) :
    ∀ fuel t, t.length ≤ fuel →
      replaceCIAux pat tpl fuel t
        = joinReplacingMatches tpl (splitCIAux pat fuel t) := by
  intro fuel
  induction fuel with
  | zero =>
    intro t ht
    have ht0 : t = [] := List.length_eq_zero.mp (Nat.le_zero.mp ht)
    subst ht0
    simp [replaceCIAux, splitCIAux, joinReplacingMatches]
  | succ n ih =>
    intro t ht
    cases t with
    | nil => simp [replaceCIAux, splitCIAux, joinReplacingMatches]
    | cons c rest =>
      have hrest : rest.length ≤ n := by
        simpa using Nat.lt_succ_iff.mp (Nat.lt_of_lt_of_le (by simp) ht)
      by_cases h : listStartsWith (lowerStr (c :: rest)) (lowerStr pat) = true
      · have hdrop : (rest.drop (pat.length - 1)).length ≤ n := by
          simp only [List.length_drop]
          omega
        simp only [replaceCIAux, splitCIAux, h, if_true]
        rw [ih _ hdrop]
        simp [joinReplacingMatches, List.append_assoc]
      · simp only [replaceCIAux, splitCIAux, h, if_false, Bool.false_eq_true]
        rw [ih _ hrest, joinReplacingMatches_cons]

theorem applyUserEntries_snd_ok :
    ∀ (entries : List DictEntry) (st out : Str × List Str),
      applyUserEntries entries st = .ok out →
      out.2 = st.2 ++ entries.map (fun e => lowerStr e.pattern) := by
  intro entries
  induction entries with
  | nil =>
    intro st out h
    simp only [applyUserEntries, Except.ok.injEq] at h
    simp [← h]
  | cons e rest ih =>
    intro st out h
    simp only [applyUserEntries] at h
    cases hrep : replace_case_insensitive st.1 e.pattern e.replacement with
    | error err =>
      rw [hrep] at h
      exact absurd h (by simp)
    | ok t =>
      rw [hrep] at h
      have h2 := ih (t, st.2 ++ [lowerStr e.pattern]) out h
      simpa [List.append_assoc] using h2

theorem applyGlobalEntries_filter_claimed (claimed : List Str) (P : Str)
    (hP : claimed.contains P = true) (entries : List DictEntry) :
    ∀ text,
      applyGlobalEntries claimed entries text
        = applyGlobalEntries claimed
            (entries.filter fun e => lowerStr e.pattern != P) text := by
  induction entries with
  | nil => intro text; rfl
  | cons e es ih =>
    intro text
    by_cases he : lowerStr e.pattern = P
    · have hc : claimed.contains (lowerStr e.pattern) = true := he ▸ hP
      have hfil : (e :: es).filter (fun e => lowerStr e.pattern != P)
          = es.filter (fun e => lowerStr e.pattern != P) := by
        simp [List.filter_cons, he]
      have hstep : applyGlobalEntries claimed (e :: es) text
          = applyGlobalEntries claimed es text := by
        simp only [applyGlobalEntries]
        rw [if_pos hc]
      rw [hfil, hstep]
      exact ih text
    · have hne : (lowerStr e.pattern != P) = true := by
        simpa using he
      have hfil : (e :: es).filter (fun e => lowerStr e.pattern != P)
          = e :: es.filter (fun e => lowerStr e.pattern != P) := by
        simp [List.filter_cons, hne]
      rw [hfil]
      simp only [applyGlobalEntries]
      by_cases hc : claimed.contains (lowerStr e.pattern) = true
      · rw [if_pos hc, if_pos hc]
        exact ih text
      · rw [if_neg hc, if_neg hc]
        cases hrep : replace_case_insensitive text e.pattern e.replacement with
        | error err => rfl
        | ok t => exact ih t

/-- C2: in apply_dictionary the personal entries are applied first with a
case-insensitive replacement of every occurrence, and a shared entry
whose lowercased pattern is claimed by a personal entry is skipped:
dropping all shared entries for the claimed pattern P does not change
the outcome, and the replacement step of the personal entry replaces
every leftmost case-insensitive occurrence of its pattern by its
template's expansion at that match (or errors on an invalid template, in
both the implementation and the specification-side definition). -/
theorem C2_personal_entries_win (annot fillers punct : Str → Str)
    (us gs : List DictEntry) (text : Str) (P r : Str)
    (hmem : DictEntry.mk P r ∈ us) (t : Str) :
    apply_dictionary annot fillers punct us gs text
      = apply_dictionary annot fillers punct us
          (gs.filter fun e => lowerStr e.pattern != lowerStr P) text
    ∧ replace_case_insensitive t P r = replace_every_occurrence t P r := by
  constructor
  · unfold apply_dictionary
    by_cases htext : text = []
    · simp [htext]
    · simp only [htext, if_neg, if_false]
      cases hst : applyUserEntries us (fillers (annot text), []) with
      | error err => rfl
      | ok st =>
        have hclaimed : st.2.contains (lowerStr P) = true := by
          rw [applyUserEntries_snd_ok us (fillers (annot text), []) st hst]
          have hP : lowerStr P ∈ us.map (fun e => lowerStr e.pattern) :=
            List.mem_map.mpr ⟨⟨P, r⟩, hmem, rfl⟩
          exact List.elem_eq_true_of_mem (by simpa using hP)
        exact congrArg
          (fun x => match x with
            | Except.error err => Except.error err
            | Except.ok r3 => Except.ok (punct r3))
          (applyGlobalEntries_filter_claimed st.2 (lowerStr P) hclaimed gs
            st.1)
  · unfold replace_case_insensitive replace_every_occurrence
    by_cases hp : P = []
    · simp [hp]
    · simp only [hp, if_neg, if_false]
      cases htpl : parse_template r with
      | none => rfl
      | some tpl =>
        exact congrArg Except.ok (replaceCIAux_eq_join P tpl t.length t le_rfl)

theorem C2_personal_entries_win_witness :
    apply_dictionary id id id [⟨['a'], ['X']⟩] [⟨['A'], ['Y']⟩]
        ['a', 'b', 'a']
      = apply_dictionary id id id [⟨['a'], ['X']⟩]
          ([⟨['A'], ['Y']⟩].filter fun e =>
            lowerStr e.pattern != lowerStr ['a'])
          ['a', 'b', 'a']
    ∧ replace_case_insensitive ['a', 'A'] ['a'] ['X']
        = replace_every_occurrence ['a', 'A'] ['a'] ['X'] :=
  C2_personal_entries_win id id id [⟨['a'], ['X']⟩] [⟨['A'], ['Y']⟩]
    ['a', 'b', 'a'] ['a'] ['X'] (by decide) ['a', 'A']

/-- exceptIsOk e is true exactly on the ok outcome. -/
def exceptIsOk {ε α : Type} : Except ε α → Bool
  | .ok _ => true
  | .error _ => false

theorem replace_case_insensitive_ok (t p r : Str)
    (h : (parse_template r).isSome = true) :
    exceptIsOk (replace_case_insensitive t p r) = true := by
  unfold replace_case_insensitive
  by_cases hp : p = []
  · simp [hp, exceptIsOk]
  · simp only [hp, if_neg, if_false]
    cases htpl : parse_template r with
    | none =>
      rw [htpl] at h
      simp at h
    | some tpl => rfl

theorem applyUserEntries_ok :
    ∀ (entries : List DictEntry) (st : Str × List Str),
      (∀ e ∈ entries, (parse_template e.replacement).isSome = true) →
      exceptIsOk (applyUserEntries entries st) = true := by
  intro entries
  induction entries with
  | nil => intro st _; rfl
  | cons e rest ih =>
    intro st hall
    have hok := replace_case_insensitive_ok st.1 e.pattern e.replacement
      (hall e (by simp))
    simp only [applyUserEntries]
    cases hrep : replace_case_insensitive st.1 e.pattern e.replacement with
    | error err =>
      rw [hrep] at hok
      simp [exceptIsOk] at hok
    | ok t =>
      exact ih _ (fun e2 he2 => hall e2 (List.mem_cons_of_mem e he2))

theorem applyGlobalEntries_ok :
    ∀ (entries : List DictEntry) (claimed : List Str) (text : Str),
      (∀ e ∈ entries, (parse_template e.replacement).isSome = true) →
      exceptIsOk (applyGlobalEntries claimed entries text) = true := by
  intro entries
  induction entries with
  | nil => intro claimed text _; rfl
  | cons e rest ih =>
    intro claimed text hall
    simp only [applyGlobalEntries]
    by_cases hc : claimed.contains (lowerStr e.pattern) = true
    · rw [if_pos hc]
      exact ih claimed text (fun e2 he2 => hall e2 (List.mem_cons_of_mem e he2))
    · rw [if_neg hc]
      have hok := replace_case_insensitive_ok text e.pattern e.replacement
        (hall e (by simp))
      cases hrep : replace_case_insensitive text e.pattern e.replacement with
      | error err =>
        rw [hrep] at hok
        simp [exceptIsOk] at hok
      | ok t =>
        exact ih claimed t (fun e2 he2 => hall e2 (List.mem_cons_of_mem e he2))

/-- C5 counterexample: apply_dictionary raises.  An entry whose
replacement is a backslash followed by the digit one (an invalid group
reference for the escaped pattern), or a lone trailing backslash, makes
regex.sub raise re.error; the text does not even contain the pattern, so
the claim's "never raises for well-formed string input" fails for such
pattern and replacement strings. -/
theorem C5_bad_template_counterexample :
    apply_dictionary id id id [⟨['a'], ['\\', '1']⟩] [] ['b']
      = .error .badTemplate
    ∧ apply_dictionary id id id [⟨['a'], ['\\']⟩] [] ['b']
      = .error .badTemplate := by
  decide

/-- C5 amended: apply_dictionary does not raise provided every entry's
replacement parses as a valid re.sub template (in particular, whenever
no replacement contains a backslash); an empty input text returns empty
output through the guard, before any replacement runs, regardless of the
entries; and an entry whose pattern is the empty string leaves the text
unchanged in its replacement step, also regardless of its replacement. -/
theorem C5_no_raise_amended (annot fillers punct : Str → Str)
    (us gs : List DictEntry) (t rep : Str)
    (hus : ∀ e ∈ us, (parse_template e.replacement).isSome = true)
    (hgs : ∀ e ∈ gs, (parse_template e.replacement).isSome = true) :
    exceptIsOk (apply_dictionary annot fillers punct us gs t) = true
    ∧ apply_dictionary annot fillers punct us gs [] = .ok []
    ∧ replace_case_insensitive t [] rep = .ok t := by
  refine ⟨?_, rfl, rfl⟩
  unfold apply_dictionary
  by_cases ht : t = []
  · simp [ht, exceptIsOk]
  · simp only [ht, if_neg, if_false]
    have hu := applyUserEntries_ok us (fillers (annot t), []) hus
    cases hst : applyUserEntries us (fillers (annot t), []) with
    | error err =>
      rw [hst] at hu
      simp [exceptIsOk] at hu
    | ok st =>
      show exceptIsOk (match applyGlobalEntries st.2 gs st.1 with
        | Except.error err => Except.error err
        | Except.ok r3 => Except.ok (punct r3)) = true
      have hg := applyGlobalEntries_ok gs st.2 st.1 hgs
      cases hgr : applyGlobalEntries st.2 gs st.1 with
      | error err =>
        rw [hgr] at hg
        simp [exceptIsOk] at hg
      | ok r3 => rfl

theorem C5_no_raise_amended_witness :
    exceptIsOk (apply_dictionary id id id [⟨['a'], ['X']⟩] [] ['a']) = true
    ∧ apply_dictionary id id id [⟨['a'], ['X']⟩] [] [] = .ok []
    ∧ replace_case_insensitive ['a'] [] ['X'] = .ok ['a'] :=
  C5_no_raise_amended id id id [⟨['a'], ['X']⟩] [] ['a'] ['X']
    (by decide) (by decide)

example :
    replace_case_insensitive "aAbA".data "a".data "x".data
      = .ok "xxbx".data := by
  decide

example :
    replace_case_insensitive "ab".data "a".data ['\\', 'n']
      = .ok ['\n', 'b'] := by
  decide

example :
    replace_case_insensitive "aA".data "a".data "\\g<0>!".data
      = .ok "a!A!".data := by
  decide

example :
    replace_every_occurrence "aAbA".data "a".data "x".data
      = .ok "xxbx".data := by
  decide

example :
    apply_dictionary id id id [⟨"a".data, "X".data⟩] [⟨"A".data, "Y".data⟩]
      "aba".data = .ok "XbX".data := by
  decide

/-!
Embedding of server/app/services/dictionary_normalize.py.  The two Python
library functions it uses, unicodedata.normalize("NFKC", .) and
str.casefold, are taken as function parameters nfkc and pycasefold; every
theorem quantifies over them.
-/

/-- Embedding of normalize_dictionary_text: NFKC-normalize, strip, then
casefold unless the casefold flag is cleared. -/
def normalize_dictionary_text (nfkc pycasefold : Str → Str) (text : Str)
    (casefoldFlag : Bool) : Str :=
  let normalized := pyStrip (nfkc text)
  if casefoldFlag then pycasefold normalized else normalized

/-- Embedding of normalize_dictionary_text_case_sensitive. -/
def normalize_dictionary_text_case_sensitive (nfkc pycasefold : Str → Str)
    (text : Str) : Str :=
  normalize_dictionary_text nfkc pycasefold text false

/-!
Data model of the moderation workflow (models/global_dictionary_request.py,
models/user_dictionary.py and the shared dictionary rows consumed by
admin/dictionary_requests.py).  Database tables are modelled as lists of
rows; timestamps are abstract instants (Nat).
-/

/-- Row of the global_dictionary table. -/
structure GlobalDictionary where
  pattern : Str
  replacement : Str
  created_by : Option Nat
deriving DecidableEq

/-- Row of the global_dictionary_requests table. -/
structure GlobalDictionaryRequest where
  user_id : Nat
  pattern : Str
  replacement : Str
  status : Str
  reviewed_by : Option Nat
  reviewed_at : Option Nat
deriving DecidableEq

def REQUEST_STATUS_PENDING : Str := "pending".data

def REQUEST_STATUS_APPROVED : Str := "approved".data

def REQUEST_STATUS_REJECTED : Str := "rejected".data

/-- Row of the user_dictionary table. -/
structure UserDictionary where
  user_id : Nat
  pattern : Str
  replacement : Str
  is_rejected : Bool
deriving DecidableEq

def USER_DICTIONARY_LIMIT : Nat := 100

def USER_DICTIONARY_REJECTED_LIMIT : Nat := 200

/-- Typed errors raised by the moderation endpoints (HTTP 400/404 details
in the source). -/
inductive ModerationError
  | notPending
  | quotaExceeded
deriving DecidableEq

/-- Embedding of user_dictionary.get_user_entry_count: all entries of the
user. -/
def get_user_entry_count (entries : List UserDictionary) (uid : Nat) :
    Nat :=
  (entries.filter (fun e => e.user_id == uid)).length

/-- Embedding of user_dictionary.get_user_rejected_entry_count. -/
def get_user_rejected_entry_count (entries : List UserDictionary)
    (uid : Nat) : Nat :=
  (entries.filter (fun e => e.user_id == uid && e.is_rejected)).length

/-- Embedding of user_dictionary.add_user_entry: a non-rejected entry is
checked against the total per-user limit, a rejection marker against the
separate rejected-entry limit. -/
def add_user_entry (entries : List UserDictionary) (uid : Nat)
    (pattern replacement : Str) (isRejectedFlag : Bool) :
    Except ModerationError (List UserDictionary) :=
  if isRejectedFlag = false
      ∧ USER_DICTIONARY_LIMIT ≤ get_user_entry_count entries uid then
    .error .quotaExceeded
  else if isRejectedFlag = true
      ∧ USER_DICTIONARY_REJECTED_LIMIT
          ≤ get_user_rejected_entry_count entries uid then
    .error .quotaExceeded
  else
    .ok (entries ++ [⟨uid, pattern, replacement, isRejectedFlag⟩])

/-- Modelled from the spec: get_user_entry_by_pattern (imported by
admin/dictionary_requests.py but not among the sources here) returns the
requester's personal entry for that exact pattern, if any. -/
def get_user_entry_by_pattern (entries : List UserDictionary) (uid : Nat)
    (pattern : Str) : Option UserDictionary :=
  entries.find? (fun e => e.user_id == uid && e.pattern == pattern)

/-- Embedding of admin/dictionary_requests.approve_dictionary_request,
acting on the fetched request and the current shared rows.  The source
finds the first shared entry whose normalized pattern equals the
request's; when its case-sensitively-normalized replacement differs it
deletes that entry and, because conflict_entry is still not None, skips
the insert; when the replacement matches it resets conflict_entry to None
and therefore runs the insert, adding a second entry for the same
normalized pattern. -/
def approve_dictionary_request (nfkc pycasefold : Str → Str)
    (globals : List GlobalDictionary) (request : GlobalDictionaryRequest)
    (adminId now : Nat) :
    Except ModerationError
      (List GlobalDictionary × GlobalDictionaryRequest) :=
  if request.status ≠ REQUEST_STATUS_PENDING then .error .notPending
  else
    let np := normalize_dictionary_text nfkc pycasefold request.pattern true
    let nr := normalize_dictionary_text_case_sensitive nfkc pycasefold
      request.replacement
    let approved := { request with
      status := REQUEST_STATUS_APPROVED
      reviewed_by := some adminId
      reviewed_at := some now }
    match globals.find? (fun e =>
        normalize_dictionary_text nfkc pycasefold e.pattern true == np) with
    | some conflict =>
      if normalize_dictionary_text_case_sensitive nfkc pycasefold
          conflict.replacement ≠ nr then
        .ok (globals.erase conflict, approved)
      else
        .ok (globals
          ++ [⟨request.pattern, request.replacement, some adminId⟩],
          approved)
    | none =>
      .ok (globals
        ++ [⟨request.pattern, request.replacement, some adminId⟩],
        approved)

/-- Embedding of admin/dictionary_requests.reject_dictionary_request,
acting on the fetched request and the requester's personal entries. -/
def reject_dictionary_request (userEntries : List UserDictionary)
    (request : GlobalDictionaryRequest) (adminId now : Nat) :
    Except ModerationError (List UserDictionary × GlobalDictionaryRequest) :=
  if request.status ≠ REQUEST_STATUS_PENDING then .error .notPending
  else
    let rejected := { request with
      status := REQUEST_STATUS_REJECTED
      reviewed_by := some adminId
      reviewed_at := some now }
    match get_user_entry_by_pattern userEntries request.user_id
        request.pattern with
    | some _ => .ok (userEntries, rejected)
    | none =>
      match add_user_entry userEntries request.user_id request.pattern
          request.replacement true with
      | .error e => .error e
      | .ok entries2 => .ok (entries2, rejected)

/-- C1: evaluation of the approve embedding at the failing input.  With a
shared entry of the same normalized pattern and a differing replacement,
approve deletes the entry and inserts nothing, leaving the shared list
empty; with a matching replacement it inserts a duplicate second entry for
the same pattern.  The claim (and the spec) demand the opposite pairing:
delete+insert on a differing replacement, and no insertion or deletion on
a matching one. -/
theorem C1_approve_conflict_logic_inverted :
    approve_dictionary_request id id [⟨['a'], ['y'], some 1⟩]
        ⟨7, ['a'], ['x'], REQUEST_STATUS_PENDING, none, none⟩ 9 5
      = .ok ([],
          ⟨7, ['a'], ['x'], REQUEST_STATUS_APPROVED, some 9, some 5⟩)
    ∧ approve_dictionary_request id id [⟨['a'], ['x'], some 1⟩]
        ⟨7, ['a'], ['x'], REQUEST_STATUS_PENDING, none, none⟩ 9 5
      = .ok ([⟨['a'], ['x'], some 1⟩, ⟨['a'], ['x'], some 9⟩],
          ⟨7, ['a'], ['x'], REQUEST_STATUS_APPROVED, some 9, some 5⟩) := by
  decide

/-- C7: rejecting a Pending request whose requester has no personal entry
for that exact pattern fails whole with QuotaExceeded when the rejected-
entry quota is exhausted (no state change: the error carries no updated
rows and the request is unchanged); otherwise it inserts one rejection
marker, unless an entry for the exact pattern already exists, and marks
the request Rejected with moderator and instant; a non-Pending request is
refused, so the transition happens exactly once. -/
theorem C7_reject_quota_and_marker (userEntries : List UserDictionary)
    (request : GlobalDictionaryRequest) (adminId now : Nat) :
    (request.status = REQUEST_STATUS_PENDING →
      get_user_entry_by_pattern userEntries request.user_id request.pattern
          = none →
      USER_DICTIONARY_REJECTED_LIMIT
          ≤ get_user_rejected_entry_count userEntries request.user_id →
      reject_dictionary_request userEntries request adminId now
        = .error .quotaExceeded)
    ∧ (request.status = REQUEST_STATUS_PENDING →
      get_user_entry_by_pattern userEntries request.user_id request.pattern
          = none →
      get_user_rejected_entry_count userEntries request.user_id
          < USER_DICTIONARY_REJECTED_LIMIT →
      reject_dictionary_request userEntries request adminId now
        = .ok (userEntries
            ++ [⟨request.user_id, request.pattern, request.replacement,
                  true⟩],
            { request with
              status := REQUEST_STATUS_REJECTED
              reviewed_by := some adminId
              reviewed_at := some now }))
    ∧ (∀ e, request.status = REQUEST_STATUS_PENDING →
      get_user_entry_by_pattern userEntries request.user_id request.pattern
          = some e →
      reject_dictionary_request userEntries request adminId now
        = .ok (userEntries,
            { request with
              status := REQUEST_STATUS_REJECTED
              reviewed_by := some adminId
              reviewed_at := some now }))
    ∧ (request.status ≠ REQUEST_STATUS_PENDING →
      reject_dictionary_request userEntries request adminId now
        = .error .notPending) := by
  refine ⟨?_, ?_, ?_, ?_⟩
  · intro hp hnone hq
    unfold reject_dictionary_request
    rw [if_neg (by simp [hp]), hnone]
    unfold add_user_entry
    rw [if_neg (by simp), if_pos ⟨rfl, hq⟩]
  · intro hp hnone hq
    unfold reject_dictionary_request
    rw [if_neg (by simp [hp]), hnone]
    unfold add_user_entry
    rw [if_neg (by simp), if_neg (by simp; omega)]
  · intro e hp hsome
    unfold reject_dictionary_request
    rw [if_neg (by simp [hp]), hsome]
  · intro hp
    unfold reject_dictionary_request
    rw [if_pos hp]

/-- Typed errors raised by api/dictionary_requests.create_dictionary_request
(all reported as HTTP 400 in the source, with distinct details). -/
inductive RequestError
  | limitReached
  | duplicateGlobal
  | duplicatePending
deriving DecidableEq

/-- Modelled from the spec: get_pending_request_count_for_user (imported
by api/dictionary_requests.py but not among the sources here) counts the
requester's Pending requests. -/
def get_pending_request_count_for_user
    (requests : List GlobalDictionaryRequest) (uid : Nat) : Nat :=
  (requests.filter
    (fun r => r.user_id == uid && r.status == REQUEST_STATUS_PENDING)).length

/-- Modelled from the spec: get_request_count_for_user (imported by
api/dictionary_requests.py but not among the sources here) counts the
requester's requests with the given status. -/
def get_request_count_for_user (requests : List GlobalDictionaryRequest)
    (uid : Nat) (status : Str) : Nat :=
  (requests.filter (fun r => r.user_id == uid && r.status == status)).length

/-- Embedding of api/dictionary_requests.create_dictionary_request: quota
check on remaining = 200 - pending - rejected, then normalized duplicate
checks against the shared entries and the pending requests, then the
insert of a new Pending request. -/
def create_dictionary_request (nfkc pycasefold : Str → Str)
    (globals : List GlobalDictionary)
    (requests : List GlobalDictionaryRequest) (uid : Nat)
    (pattern replacement : Str) :
    Except RequestError
      (List GlobalDictionaryRequest × GlobalDictionaryRequest) :=
  if (200 : Int)
      - (get_pending_request_count_for_user requests uid : Int)
      - (get_request_count_for_user requests uid REQUEST_STATUS_REJECTED :
          Int) ≤ 0 then
    .error .limitReached
  else if (globals.find? (fun e =>
      normalize_dictionary_text nfkc pycasefold e.pattern true
          == normalize_dictionary_text nfkc pycasefold pattern true
        && normalize_dictionary_text nfkc pycasefold e.replacement true
          == normalize_dictionary_text nfkc pycasefold replacement
              true)).isSome then
    .error .duplicateGlobal
  else if ((requests.filter
      (fun r => r.status == REQUEST_STATUS_PENDING)).find? (fun r =>
      normalize_dictionary_text nfkc pycasefold r.pattern true
          == normalize_dictionary_text nfkc pycasefold pattern true
        && normalize_dictionary_text nfkc pycasefold r.replacement true
          == normalize_dictionary_text nfkc pycasefold replacement
              true)).isSome then
    .error .duplicatePending
  else
    .ok (requests
        ++ [⟨uid, pattern, replacement, REQUEST_STATUS_PENDING, none,
              none⟩],
      ⟨uid, pattern, replacement, REQUEST_STATUS_PENDING, none, none⟩)

/-- C6: submit fails without mutation (the error carries no new request
list) with the quota error when pending + rejected counts reach 200, with
a duplicate error when a normalized-equal (pattern, replacement) pair
exists among the shared entries or among the pending requests, and
otherwise appends exactly one new Pending request. -/
theorem C6_submit_quota_and_duplicates (nfkc pycasefold : Str → Str)
    (globals : List GlobalDictionary)
    (requests : List GlobalDictionaryRequest) (uid : Nat)
    (pattern replacement : Str) :
    (200 ≤ get_pending_request_count_for_user requests uid
        + get_request_count_for_user requests uid REQUEST_STATUS_REJECTED →
      create_dictionary_request nfkc pycasefold globals requests uid
          pattern replacement = .error .limitReached)
    ∧ (get_pending_request_count_for_user requests uid
        + get_request_count_for_user requests uid REQUEST_STATUS_REJECTED
          < 200 →
      (∃ g ∈ globals,
        normalize_dictionary_text nfkc pycasefold g.pattern true
            = normalize_dictionary_text nfkc pycasefold pattern true
          ∧ normalize_dictionary_text nfkc pycasefold g.replacement true
            = normalize_dictionary_text nfkc pycasefold replacement true) →
      create_dictionary_request nfkc pycasefold globals requests uid
          pattern replacement = .error .duplicateGlobal)
    ∧ (get_pending_request_count_for_user requests uid
        + get_request_count_for_user requests uid REQUEST_STATUS_REJECTED
          < 200 →
      ¬ (∃ g ∈ globals,
        normalize_dictionary_text nfkc pycasefold g.pattern true
            = normalize_dictionary_text nfkc pycasefold pattern true
          ∧ normalize_dictionary_text nfkc pycasefold g.replacement true
            = normalize_dictionary_text nfkc pycasefold replacement true) →
      (∃ r ∈ requests, r.status = REQUEST_STATUS_PENDING
          ∧ normalize_dictionary_text nfkc pycasefold r.pattern true
            = normalize_dictionary_text nfkc pycasefold pattern true
          ∧ normalize_dictionary_text nfkc pycasefold r.replacement true
            = normalize_dictionary_text nfkc pycasefold replacement true) →
      create_dictionary_request nfkc pycasefold globals requests uid
          pattern replacement = .error .duplicatePending)
    ∧ (get_pending_request_count_for_user requests uid
        + get_request_count_for_user requests uid REQUEST_STATUS_REJECTED
          < 200 →
      ¬ (∃ g ∈ globals,
        normalize_dictionary_text nfkc pycasefold g.pattern true
            = normalize_dictionary_text nfkc pycasefold pattern true
          ∧ normalize_dictionary_text nfkc pycasefold g.replacement true
            = normalize_dictionary_text nfkc pycasefold replacement true) →
      ¬ (∃ r ∈ requests, r.status = REQUEST_STATUS_PENDING
          ∧ normalize_dictionary_text nfkc pycasefold r.pattern true
            = normalize_dictionary_text nfkc pycasefold pattern true
          ∧ normalize_dictionary_text nfkc pycasefold r.replacement true
            = normalize_dictionary_text nfkc pycasefold replacement true) →
      create_dictionary_request nfkc pycasefold globals requests uid
          pattern replacement
        = .ok (requests
            ++ [⟨uid, pattern, replacement, REQUEST_STATUS_PENDING, none,
                  none⟩],
            ⟨uid, pattern, replacement, REQUEST_STATUS_PENDING, none,
              none⟩)) := by
  have hgiff : (globals.find? (fun e =>
      normalize_dictionary_text nfkc pycasefold e.pattern true
          == normalize_dictionary_text nfkc pycasefold pattern true
        && normalize_dictionary_text nfkc pycasefold e.replacement true
          == normalize_dictionary_text nfkc pycasefold replacement
              true)).isSome = true
      ↔ (∃ g ∈ globals,
        normalize_dictionary_text nfkc pycasefold g.pattern true
            = normalize_dictionary_text nfkc pycasefold pattern true
          ∧ normalize_dictionary_text nfkc pycasefold g.replacement true
            = normalize_dictionary_text nfkc pycasefold replacement
                true) := by
    rw [List.find?_isSome]
    simp
  have hpiff : ((requests.filter
      (fun r => r.status == REQUEST_STATUS_PENDING)).find? (fun r =>
      normalize_dictionary_text nfkc pycasefold r.pattern true
          == normalize_dictionary_text nfkc pycasefold pattern true
        && normalize_dictionary_text nfkc pycasefold r.replacement true
          == normalize_dictionary_text nfkc pycasefold replacement
              true)).isSome = true
      ↔ (∃ r ∈ requests, r.status = REQUEST_STATUS_PENDING
          ∧ normalize_dictionary_text nfkc pycasefold r.pattern true
            = normalize_dictionary_text nfkc pycasefold pattern true
          ∧ normalize_dictionary_text nfkc pycasefold r.replacement true
            = normalize_dictionary_text nfkc pycasefold replacement
                true) := by
    rw [List.find?_isSome]
    constructor
    · rintro ⟨r, hr, hp⟩
      have hr' := List.mem_filter.mp hr
      refine ⟨r, hr'.1, by simpa using hr'.2, ?_⟩
      simpa using hp
    · rintro ⟨r, hr, hst, hpat, hrep⟩
      exact ⟨r, List.mem_filter.mpr ⟨hr, by simpa using hst⟩,
        by simp [hpat, hrep]⟩
  refine ⟨?_, ?_, ?_, ?_⟩
  · intro hq
    unfold create_dictionary_request
    rw [if_pos (by omega)]
  · intro hq hdup
    unfold create_dictionary_request
    rw [if_neg (by omega), if_pos (hgiff.mpr hdup)]
  · intro hq hg hp
    unfold create_dictionary_request
    rw [if_neg (by omega),
      if_neg (fun h => hg (hgiff.mp h)), if_pos (hpiff.mpr hp)]
  · intro hq hg hp
    unfold create_dictionary_request
    rw [if_neg (by omega),
      if_neg (fun h => hg (hgiff.mp h)),
      if_neg (fun h => hp (hpiff.mp h))]

theorem C6_submit_quota_and_duplicates_witness :
    create_dictionary_request id id [] [] 4 ['p'] ['q']
      = .ok ([⟨4, ['p'], ['q'], REQUEST_STATUS_PENDING, none, none⟩],
          ⟨4, ['p'], ['q'], REQUEST_STATUS_PENDING, none, none⟩) :=
  (C6_submit_quota_and_duplicates id id [] [] 4 ['p'] ['q']).2.2.2
    (by decide) (by rintro ⟨g, hg, -⟩; simp at hg)
    (by rintro ⟨r, hr, -⟩; simp at hr)

theorem C7_reject_quota_and_marker_witness :
    reject_dictionary_request []
        ⟨4, ['p'], ['q'], REQUEST_STATUS_PENDING, none, none⟩ 9 5
      = .ok ([⟨4, ['p'], ['q'], true⟩],
          ⟨4, ['p'], ['q'], REQUEST_STATUS_REJECTED, some 9, some 5⟩) :=
  (C7_reject_quota_and_marker []
      ⟨4, ['p'], ['q'], REQUEST_STATUS_PENDING, none, none⟩ 9 5).2.1
    (by decide) (by decide) (by decide)

/-!
Embedding of server/app/services/backup_scheduler.get_next_run_at.
Python datetimes are modelled with an abstract linear day index plus the
time-of-day fields; comparison is field-lexicographic as in Python, the
replace call keeps the date and zeroes minutes, seconds and microseconds,
and timedelta(days=1) increments the day index.
-/

/-- Model of a Python datetime: linear day ordinal plus time fields. -/
structure PyDateTime where
  day : Nat
  hour : Nat
  minute : Nat
  second : Nat
  microsecond : Nat
deriving DecidableEq

/-- Lexicographic strict comparison of datetimes, as in Python. -/
def dtLtb (a b : PyDateTime) : Bool :=
  if a.day ≠ b.day then a.day < b.day
  else if a.hour ≠ b.hour then a.hour < b.hour
  else if a.minute ≠ b.minute then a.minute < b.minute
  else if a.second ≠ b.second then a.second < b.second
  else a.microsecond < b.microsecond

/-- current.replace(hour=h, minute=0, second=0, microsecond=0). -/
def replaceToHour (dt : PyDateTime) (h : Nat) : PyDateTime :=
  ⟨dt.day, h, 0, 0, 0⟩

/-- target + timedelta(days=1). -/
def addOneDay (dt : PyDateTime) : PyDateTime :=
  { dt with day := dt.day + 1 }

/-- Embedding of backup_scheduler.get_next_run_at: take today at the
configured hour and add one day exactly when current is strictly past it
(current > target). -/
def get_next_run_at (current : PyDateTime) (run_at_hour : Nat) :
    PyDateTime :=
  let target := replaceToHour current run_at_hour
  if dtLtb target current then addOneDay target else target

/-- C9 counterexample: at the exact boundary where the current instant
equals today at the configured hour, that instant is not in the future,
yet get_next_run_at returns it (today), not tomorrow, so the claim's
"otherwise tomorrow" branch is wrong there.  The source test
test_get_next_run_at_exact_target pins this behaviour as intended. -/
theorem C9_boundary_counterexample :
    dtLtb ⟨100, 3, 0, 0, 0⟩ (replaceToHour ⟨100, 3, 0, 0, 0⟩ 3) = false
    ∧ get_next_run_at ⟨100, 3, 0, 0, 0⟩ 3
        ≠ addOneDay (replaceToHour ⟨100, 3, 0, 0, 0⟩ 3) := by
  decide

/-- C9 amended: the next run instant is today at the configured hour when
that instant is not strictly earlier than the current instant (so also at
the exact boundary), and tomorrow at that hour when it is strictly
earlier. -/
theorem C9_next_run_at_amended (current : PyDateTime) (h : Nat) :
    (dtLtb (replaceToHour current h) current = false →
      get_next_run_at current h = replaceToHour current h)
    ∧ (dtLtb (replaceToHour current h) current = true →
      get_next_run_at current h = addOneDay (replaceToHour current h)) := by
  constructor
  · intro hle
    unfold get_next_run_at
    simp [hle]
  · intro hlt
    unfold get_next_run_at
    simp [hlt]

theorem C9_next_run_at_amended_witness :
    get_next_run_at ⟨100, 2, 59, 0, 0⟩ 3
      = replaceToHour ⟨100, 2, 59, 0, 0⟩ 3 :=
  (C9_next_run_at_amended ⟨100, 2, 59, 0, 0⟩ 3).1 (by decide)

/-!
Model for the backup lock (services/backup.py and the restore endpoint).
run_with_backup_lock in the source acquires a process-wide asyncio.Lock
with "async with", so a second caller queues until the holder releases;
its test test_backup_lock_serializes_runs drives two jobs to completion
with at most one running.  The restore endpoint instead calls
run_with_backup_lock_or_conflict, whose definition is not among the
sources here; it is modelled from the spec: a caller attempting to start
while one is in flight observes a LockConflict outcome rather than
blocking.  Two invocations are modelled as tasks stepped by an arbitrary
interleaving schedule.
-/

/-- Lock acquisition discipline of an invocation: blocking is the
source's run_with_backup_lock (async with on the asyncio lock); failFast
is modelled from the spec for run_with_backup_lock_or_conflict. -/
inductive LockMode
  | blocking
  | failFast
deriving DecidableEq, Fintype

/-- Phase of one invocation. -/
inductive TaskPhase
  | notStarted
  | waiting
  | running
  | doneSuccess
  | doneConflict
deriving DecidableEq, Fintype

/-- One invocation: its lock discipline and current phase. -/
structure LockTask where
  mode : LockMode
  phase : TaskPhase
deriving DecidableEq, Fintype

/-- System state: who holds the lock (false = task 0, true = task 1) and
the two invocations. -/
structure LockSystem where
  lock : Option Bool
  t0 : LockTask
  t1 : LockTask
deriving DecidableEq, Fintype

/-- One step of a single invocation: start (acquire, or queue, or observe
the conflict, depending on the mode), finish running and release, or stay
put once done. -/
def stepTask (t : LockTask) (lockState : Option Bool) (i : Bool) :
    LockTask × Option Bool :=
  match t.phase with
  | .notStarted =>
    match lockState with
    | none => ({ t with phase := .running }, some i)
    | some _ =>
      match t.mode with
      | .blocking => ({ t with phase := .waiting }, lockState)
      | .failFast => ({ t with phase := .doneConflict }, lockState)
  | .waiting =>
    match lockState with
    | none => ({ t with phase := .running }, some i)
    | some _ => (t, lockState)
  | .running => ({ t with phase := .doneSuccess }, none)
  | .doneSuccess => (t, lockState)
  | .doneConflict => (t, lockState)

/-- Scheduler step: advance the chosen invocation. -/
def lockStep (s : LockSystem) (i : Bool) : LockSystem :=
  if i then
    let p := stepTask s.t1 s.lock true
    { s with t1 := p.1, lock := p.2 }
  else
    let p := stepTask s.t0 s.lock false
    { s with t0 := p.1, lock := p.2 }

/-- Run an interleaving schedule. -/
def runSchedule (s : LockSystem) (sched : List Bool) : LockSystem :=
  sched.foldl lockStep s

/-- Initial state: lock free, both invocations not started. -/
def initSystem (m0 m1 : LockMode) : LockSystem :=
  ⟨none, ⟨m0, .notStarted⟩, ⟨m1, .notStarted⟩⟩

/-- Lock/phase coupling: the lock is held by exactly the running task. -/
def lockInv (s : LockSystem) : Prop :=
  (s.lock = some false ↔ s.t0.phase = .running)
  ∧ (s.lock = some true ↔ s.t1.phase = .running)

instance (s : LockSystem) : Decidable (lockInv s) := by
  unfold lockInv
  infer_instance

set_option maxRecDepth 16384

theorem lockInv_step : ∀ (s : LockSystem) (i : Bool),
    lockInv s → lockInv (lockStep s i) := by
  decide

theorem lockInv_run : ∀ (sched : List Bool) (s : LockSystem),
    lockInv s → lockInv (runSchedule s sched) := by
  intro sched
  induction sched with
  | nil => intro s h; exact h
  | cons i rest ih => intro s h; exact ih _ (lockInv_step s i h)

theorem lockInv_initSystem : ∀ m0 m1, lockInv (initSystem m0 m1) := by
  decide

theorem lockInv_no_two_running : ∀ s : LockSystem, lockInv s →
    ¬ (s.t0.phase = .running ∧ s.t1.phase = .running) := by
  decide

theorem t0_doneConflict_step : ∀ (s : LockSystem) (i : Bool),
    s.t0.phase = .doneConflict →
    (lockStep s i).t0.phase = .doneConflict := by
  decide

theorem t0_doneConflict_run : ∀ (q : List Bool) (s : LockSystem),
    s.t0.phase = .doneConflict →
    (runSchedule s q).t0.phase = .doneConflict := by
  intro q
  induction q with
  | nil => intro s h; exact h
  | cons i rest ih => intro s h; exact ih _ (t0_doneConflict_step s i h)

theorem t1_success_step : ∀ (s : LockSystem) (i : Bool),
    (s.t1.phase = .running ∨ s.t1.phase = .doneSuccess) →
    ((lockStep s i).t1.phase = .running
      ∨ (lockStep s i).t1.phase = .doneSuccess) := by
  decide

theorem t1_success_run : ∀ (q : List Bool) (s : LockSystem),
    (s.t1.phase = .running ∨ s.t1.phase = .doneSuccess) →
    ((runSchedule s q).t1.phase = .running
      ∨ (runSchedule s q).t1.phase = .doneSuccess) := by
  intro q
  induction q with
  | nil => intro s h; exact h
  | cons i rest ih => intro s h; exact ih _ (t1_success_step s i h)

theorem modes_constant_step : ∀ (s : LockSystem) (i : Bool),
    (lockStep s i).t0.mode = s.t0.mode
    ∧ (lockStep s i).t1.mode = s.t1.mode := by
  decide

theorem modes_constant_run : ∀ (p : List Bool) (s : LockSystem),
    (runSchedule s p).t0.mode = s.t0.mode
    ∧ (runSchedule s p).t1.mode = s.t1.mode := by
  intro p
  induction p with
  | nil => intro s; exact ⟨rfl, rfl⟩
  | cons i rest ih =>
    intro s
    have h1 := modes_constant_step s i
    have h2 := ih (lockStep s i)
    exact ⟨h1.1 ▸ h2.1, h1.2 ▸ h2.2⟩

theorem failFast_attempt_step : ∀ s : LockSystem,
    s.t0.phase = .notStarted → s.t0.mode = .failFast →
    s.lock = some true →
    (lockStep s false).t0.phase = .doneConflict
    ∧ (lockStep s false).t1 = s.t1 := by
  decide

/-- C4 counterexample: two concurrent invocations through the source's
blocking wrapper run_with_backup_lock.  After the schedule prefix the
first is running and the second, having attempted to start while the
first was in flight, is queued waiting (not a LockConflict outcome); at
the end of the schedule both have succeeded.  This refutes the claim that
every concurrent backup-create-or-restore pair resolves as one success
and one immediate LockConflict with never two successes. -/
theorem C4_blocking_pair_counterexample :
    (runSchedule (initSystem .blocking .blocking) [false, true]).t0.phase
        = .running
    ∧ (runSchedule (initSystem .blocking .blocking) [false, true]).t1.phase
        = .waiting
    ∧ (runSchedule (initSystem .blocking .blocking)
        [false, true, false, true, true]).t0.phase = .doneSuccess
    ∧ (runSchedule (initSystem .blocking .blocking)
        [false, true, false, true, true]).t1.phase = .doneSuccess := by
  decide

/-- C4 amended: never do two lock-guarded executions run at the same
instant, on any schedule; an invocation through the fail-fast wrapper
that attempts to start while the other holds the lock observes the
LockConflict outcome immediately and the holder ends running or
successful (at most one success in the overlapping pair); invocations
through the source's blocking wrapper instead queue, and a schedule
exists on which both succeed serially. -/
theorem C4_lock_exclusivity_amended (m0 m1 : LockMode) (sched p q : List Bool) :
    (¬ ((runSchedule (initSystem m0 m1) sched).t0.phase = .running
        ∧ (runSchedule (initSystem m0 m1) sched).t1.phase = .running))
    ∧ ((runSchedule (initSystem .failFast m1) p).t0.phase = .notStarted →
      (runSchedule (initSystem .failFast m1) p).lock = some true →
      (runSchedule (initSystem .failFast m1) (p ++ false :: q)).t0.phase
          = .doneConflict
      ∧ ((runSchedule (initSystem .failFast m1) (p ++ false :: q)).t1.phase
            = .running
        ∨ (runSchedule (initSystem .failFast m1) (p ++ false :: q)).t1.phase
            = .doneSuccess))
    ∧ ((runSchedule (initSystem .blocking .blocking)
          [false, true, false, true, true]).t0.phase = .doneSuccess
      ∧ (runSchedule (initSystem .blocking .blocking)
          [false, true, false, true, true]).t1.phase = .doneSuccess) := by
  refine ⟨?_, ?_, by decide⟩
  · exact lockInv_no_two_running _ (lockInv_run sched _ (lockInv_initSystem m0 m1))
  · intro hphase hlock
    have hinv : lockInv (runSchedule (initSystem .failFast m1) p) :=
      lockInv_run p _ (lockInv_initSystem .failFast m1)
    have hmode : (runSchedule (initSystem .failFast m1) p).t0.mode
        = .failFast := (modes_constant_run p _).1
    have hstep := failFast_attempt_step _ hphase hmode hlock
    have ht1run : (runSchedule (initSystem .failFast m1) p).t1.phase
        = .running := hinv.2.mp hlock
    have hsplit : runSchedule (initSystem .failFast m1) (p ++ false :: q)
        = runSchedule
            (lockStep (runSchedule (initSystem .failFast m1) p) false) q := by
      unfold runSchedule
      rw [List.foldl_append]
      rfl
    rw [hsplit]
    refine ⟨t0_doneConflict_run q _ hstep.1, t1_success_run q _ ?_⟩
    left
    rw [hstep.2, ht1run]

theorem C4_lock_exclusivity_amended_witness :
    (runSchedule (initSystem .failFast .blocking)
        ([true] ++ false :: [])).t0.phase = .doneConflict
    ∧ ((runSchedule (initSystem .failFast .blocking)
          ([true] ++ false :: [])).t1.phase = .running
      ∨ (runSchedule (initSystem .failFast .blocking)
          ([true] ++ false :: [])).t1.phase = .doneSuccess) :=
  (C4_lock_exclusivity_amended .failFast .blocking [] [true] []).2.1
    (by decide) (by decide)

/-!
Embedding of server/app/services/backup_restore.py.  A worksheet is the
list of its rows; a row is the tuple of its four cells, each an optional
string (openpyxl values-only rows; the header forces exactly four
columns).  File lookup (FileNotFoundError) is filesystem-level and
outside the model; the empty-file and header checks are embedded.
-/

/-- Typed restore failures of backup_restore.py (ValueError details). -/
inductive RestoreError
  | emptyFile
  | invalidHeader
deriving DecidableEq

/-- One worksheet row: four optional cells. -/
structure XRow where
  c1 : Option Str
  c2 : Option Str
  c3 : Option Str
  c4 : Option Str
deriving DecidableEq

/-- str(cell).strip() if cell is not None else "". -/
def cellToStr : Option Str → Str
  | none => []
  | some s => pyStrip s

/-- Embedding of backup_restore._validate_header. -/
def validate_header (r : XRow) : Bool :=
  cellToStr r.c1 == "pattern".data
    && cellToStr r.c2 == "replacement".data
    && cellToStr r.c3 == "created_at".data
    && cellToStr r.c4 == "created_by".data

/-- Counters returned by a restore. -/
structure RestoreCounts where
  total : Nat
  added : Nat
  skipped : Nat
  failed : Nat
deriving DecidableEq

/-- Running state of the restore loop: current shared rows, the pattern
set (existing_patterns in the source) and the counters. -/
structure RestoreState where
  db : List GlobalDictionary
  existing : List Str
  counts : RestoreCounts
deriving DecidableEq

/-- One iteration of the restore loop over a data row. -/
def restore_row (st : RestoreState) (r : XRow) : RestoreState :=
  if cellToStr r.c1 = [] ∧ cellToStr r.c2 = [] then st
  else if cellToStr r.c1 = [] ∨ cellToStr r.c2 = [] then
    { st with counts := { st.counts with
        total := st.counts.total + 1
        failed := st.counts.failed + 1 } }
  else if cellToStr r.c1 ∈ st.existing then
    { st with counts := { st.counts with
        total := st.counts.total + 1
        skipped := st.counts.skipped + 1 } }
  else
    { db := st.db ++ [⟨cellToStr r.c1, cellToStr r.c2, none⟩]
      existing := st.existing ++ [cellToStr r.c1]
      counts := { st.counts with
        total := st.counts.total + 1
        added := st.counts.added + 1 } }

/-- Initial state: replace mode deletes every current shared row first,
merge mode starts from the current rows and their pattern set. -/
def restoreInit (db : List GlobalDictionary) (mode : Str) : RestoreState :=
  if mode = "replace".data then ⟨[], [], ⟨0, 0, 0, 0⟩⟩
  else ⟨db, db.map (fun e => e.pattern), ⟨0, 0, 0, 0⟩⟩

/-- Embedding of backup_restore.restore_global_dictionary_from_backup on
the parsed rows: empty-file check, header check, then the row loop. -/
def restore_global_dictionary_from_backup (db : List GlobalDictionary) :
    List XRow → Str →
      Except RestoreError (List GlobalDictionary × RestoreCounts)
  | [], _ => .error .emptyFile
  | header :: body, mode =>
    if validate_header header = false then .error .invalidHeader
    else
      .ok ((body.foldl restore_row (restoreInit db mode)).db,
        (body.foldl restore_row (restoreInit db mode)).counts)

/-- Counter consistency: total counts exactly the added, skipped and
failed rows. -/
def countsOk (st : RestoreState) : Prop :=
  st.counts.total = st.counts.added + st.counts.skipped + st.counts.failed

/-- Pattern-set consistency: existing_patterns is the pattern column of
the current rows. -/
def existingOk (st : RestoreState) : Prop :=
  st.existing = st.db.map (fun e => e.pattern)

/-- A data row with non-blank pattern and replacement. -/
def validRow (r : XRow) : Prop :=
  cellToStr r.c1 ≠ [] ∧ cellToStr r.c2 ≠ []

/-- A data row that is entirely blank after trimming. -/
def isBlankRow (r : XRow) : Bool :=
  cellToStr r.c1 == [] && cellToStr r.c2 == []

theorem countsOk_step (st : RestoreState) (r : XRow) :
    countsOk st → countsOk (restore_row st r) := by
  unfold countsOk restore_row
  intro h
  split_ifs <;> first
    | exact h
    | (simp; omega)

theorem countsOk_fold : ∀ (rows : List XRow) (st : RestoreState),
    countsOk st → countsOk (rows.foldl restore_row st) := by
  intro rows
  induction rows with
  | nil => intro st h; exact h
  | cons r rest ih => intro st h; exact ih _ (countsOk_step st r h)

theorem existingOk_step (st : RestoreState) (r : XRow) :
    existingOk st → existingOk (restore_row st r) := by
  unfold existingOk restore_row
  intro h
  split_ifs <;> simp [h]

theorem existingOk_fold : ∀ (rows : List XRow) (st : RestoreState),
    existingOk st → existingOk (rows.foldl restore_row st) := by
  intro rows
  induction rows with
  | nil => intro st h; exact h
  | cons r rest ih => intro st h; exact ih _ (existingOk_step st r h)

theorem existing_mono_step (st : RestoreState) (r : XRow) :
    st.existing ⊆ (restore_row st r).existing := by
  unfold restore_row
  split_ifs <;> simp [List.subset_append_left]

theorem existing_mono_fold : ∀ (rows : List XRow) (st : RestoreState),
    st.existing ⊆ (rows.foldl restore_row st).existing := by
  intro rows
  induction rows with
  | nil => intro st; exact fun _ h => h
  | cons r rest ih =>
    intro st
    exact fun a ha => ih (restore_row st r) (existing_mono_step st r ha)

theorem pattern_mem_after_step (st : RestoreState) (r : XRow)
    (h : validRow r) :
    cellToStr r.c1 ∈ (restore_row st r).existing := by
  unfold restore_row
  rw [if_neg (by intro hb; exact h.1 hb.1)]
  by_cases hor : cellToStr r.c1 = [] ∨ cellToStr r.c2 = []
  · exact absurd hor (by rintro (h1 | h2); exacts [h.1 h1, h.2 h2])
  · rw [if_neg hor]
    by_cases hmem : cellToStr r.c1 ∈ st.existing
    · rw [if_pos hmem]; exact hmem
    · rw [if_neg hmem]; simp

theorem pattern_mem_after_fold :
    ∀ (rows : List XRow) (st : RestoreState) (r : XRow),
      r ∈ rows → validRow r →
      cellToStr r.c1 ∈ (rows.foldl restore_row st).existing := by
  intro rows
  induction rows with
  | nil => intro st r hr; exact absurd hr (by simp)
  | cons x rest ih =>
    intro st r hr hv
    rcases List.mem_cons.mp hr with heq | htail
    · subst heq
      exact existing_mono_fold rest _ (pattern_mem_after_step st r hv)
    · exact ih _ r htail hv

theorem fold_all_existing_no_add :
    ∀ (rows : List XRow) (st : RestoreState),
      (∀ r ∈ rows, validRow r → cellToStr r.c1 ∈ st.existing) →
      (rows.foldl restore_row st).counts.added = st.counts.added
      ∧ (rows.foldl restore_row st).existing = st.existing
      ∧ (rows.foldl restore_row st).db = st.db := by
  intro rows
  induction rows with
  | nil => intro st _; exact ⟨rfl, rfl, rfl⟩
  | cons r rest ih =>
    intro st hall
    have hstep : (restore_row st r).counts.added = st.counts.added
        ∧ (restore_row st r).existing = st.existing
        ∧ (restore_row st r).db = st.db := by
      unfold restore_row
      by_cases hb : cellToStr r.c1 = [] ∧ cellToStr r.c2 = []
      · rw [if_pos hb]; exact ⟨rfl, rfl, rfl⟩
      · rw [if_neg hb]
        by_cases hor : cellToStr r.c1 = [] ∨ cellToStr r.c2 = []
        · rw [if_pos hor]; exact ⟨rfl, rfl, rfl⟩
        · rw [if_neg hor]
          have hv : validRow r := by
            constructor
            · intro h1; exact hor (Or.inl h1)
            · intro h2; exact hor (Or.inr h2)
          rw [if_pos (hall r (by simp) hv)]
          exact ⟨rfl, rfl, rfl⟩
    have hrest := ih (restore_row st r) (by
      intro r2 hr2 hv2
      rw [hstep.2.1]
      exact hall r2 (by simp [hr2]) hv2)
    rw [List.foldl_cons]
    exact ⟨hstep.1 ▸ hrest.1, hstep.2.1 ▸ hrest.2.1, hstep.2.2 ▸ hrest.2.2⟩

theorem restore_row_skip (st : RestoreState) (r : XRow) (hv : validRow r)
    (hmem : cellToStr r.c1 ∈ st.existing) :
    restore_row st r
      = { st with counts := { st.counts with
          total := st.counts.total + 1
          skipped := st.counts.skipped + 1 } } := by
  unfold restore_row
  rw [if_neg (fun hb => hv.1 hb.1),
    if_neg (by rintro (h1 | h2); exacts [hv.1 h1, hv.2 h2]),
    if_pos hmem]

theorem fold_filter_blank : ∀ (rows : List XRow) (st : RestoreState),
    (rows.filter (fun r => !isBlankRow r)).foldl restore_row st
      = rows.foldl restore_row st := by
  intro rows
  induction rows with
  | nil => intro st; rfl
  | cons r rest ih =>
    intro st
    by_cases hb : isBlankRow r = true
    · have hb' : cellToStr r.c1 = [] ∧ cellToStr r.c2 = [] := by
        simpa [isBlankRow] using hb
      have hid : restore_row st r = st := by
        unfold restore_row
        rw [if_pos hb']
      simp only [List.filter_cons, hb, Bool.not_true, if_false,
        List.foldl_cons, hid, Bool.false_eq_true]
      exact ih st
    · have hb' : (!isBlankRow r) = true := by
        simpa using hb
      simp only [List.filter_cons, hb', if_true, List.foldl_cons]
      exact ih _

theorem countsOk_restoreInit (db : List GlobalDictionary) (mode : Str) :
    countsOk (restoreInit db mode) := by
  unfold countsOk restoreInit
  split_ifs <;> rfl

theorem existingOk_restoreInit (db : List GlobalDictionary) (mode : Str) :
    existingOk (restoreInit db mode) := by
  unfold existingOk restoreInit
  split_ifs <;> simp

/-- C10: for every completed restore the counters satisfy total = added +
skipped + failed; rows blank in both pattern and replacement after
trimming change nothing (dropping them from the file gives the identical
result, so they contribute to no counter and no row); and once a pattern
has been processed from an earlier valid row of the same file, a later
valid row with the same trimmed pattern is counted as skipped, not
added. -/
theorem C10_restore_counter_invariants (db : List GlobalDictionary)
    (rows : List XRow) (mode : Str) (db' : List GlobalDictionary)
    (c : RestoreCounts) :
    (restore_global_dictionary_from_backup db rows mode = .ok (db', c) →
      c.total = c.added + c.skipped + c.failed)
    ∧ (∀ header body,
      restore_global_dictionary_from_backup db (header :: body) mode
        = restore_global_dictionary_from_backup db
            (header :: body.filter (fun r => !isBlankRow r)) mode)
    ∧ (∀ (st : RestoreState) (xs ys : List XRow) (r r2 : XRow),
      validRow r → validRow r2 → cellToStr r2.c1 = cellToStr r.c1 →
      ((xs ++ r :: ys ++ [r2]).foldl restore_row st).counts.skipped
          = ((xs ++ r :: ys).foldl restore_row st).counts.skipped + 1
      ∧ ((xs ++ r :: ys ++ [r2]).foldl restore_row st).counts.added
          = ((xs ++ r :: ys).foldl restore_row st).counts.added) := by
  refine ⟨?_, ?_, ?_⟩
  · intro h
    cases rows with
    | nil => simp [restore_global_dictionary_from_backup] at h
    | cons header body =>
      simp only [restore_global_dictionary_from_backup] at h
      by_cases hv : validate_header header = false
      · rw [if_pos hv] at h
        simp at h
      · rw [if_neg hv] at h
        simp only [Except.ok.injEq, Prod.mk.injEq] at h
        have hc := countsOk_fold body (restoreInit db mode)
          (countsOk_restoreInit db mode)
        unfold countsOk at hc
        rw [h.2] at hc
        exact hc
  · intro header body
    simp only [restore_global_dictionary_from_backup]
    by_cases hv : validate_header header = false
    · rw [if_pos hv, if_pos hv]
    · rw [if_neg hv, if_neg hv, fold_filter_blank]
  · intro st xs ys r r2 hv hv2 heq
    have hassoc : xs ++ r :: ys ++ [r2] = (xs ++ r :: ys) ++ [r2] := by
      simp
    have hsplit : (xs ++ r :: ys ++ [r2]).foldl restore_row st
        = restore_row ((xs ++ r :: ys).foldl restore_row st) r2 := by
      rw [hassoc, List.foldl_append]
      rfl
    have hmem : cellToStr r2.c1
        ∈ ((xs ++ r :: ys).foldl restore_row st).existing := by
      rw [heq]
      exact pattern_mem_after_fold (xs ++ r :: ys) st r (by simp) hv
    rw [hsplit, restore_row_skip _ r2 hv2 hmem]
    exact ⟨rfl, rfl⟩

theorem C10_restore_counter_invariants_witness :
    (RestoreCounts.mk 2 1 0 1).total
      = (RestoreCounts.mk 2 1 0 1).added + (RestoreCounts.mk 2 1 0 1).skipped
        + (RestoreCounts.mk 2 1 0 1).failed :=
  (C10_restore_counter_invariants []
      [⟨some "pattern".data, some "replacement".data,
          some "created_at".data, some "created_by".data⟩,
        ⟨some "a".data, some "b".data, none, none⟩,
        ⟨some [], some "x".data, none, none⟩]
      "merge".data [⟨"a".data, "b".data, none⟩] ⟨2, 1, 0, 1⟩).1
    (by decide)

/-- C8 counterexample: a backup file whose single data row has a blank
pattern and non-blank replacement.  The first Merge restore leaves the
(empty) shared rows unchanged, so the second Merge restore is the
identical invocation; its counters are total 1, added 0, skipped 0,
failed 1, and skipped differs from total, refuting the claim that the
second restore yields skipped = total. -/
theorem C8_merge_idempotence_counterexample :
    restore_global_dictionary_from_backup []
        [⟨some "pattern".data, some "replacement".data,
            some "created_at".data, some "created_by".data⟩,
          ⟨some [], some "x".data, none, none⟩] "merge".data
      = .ok ([], ⟨1, 0, 0, 1⟩)
    ∧ (RestoreCounts.mk 1 0 0 1).skipped ≠ (RestoreCounts.mk 1 0 0 1).total := by
  decide

/-- C8 amended: restoring the same backup file twice in Merge mode yields
on the second restore added = 0 and skipped + failed = total: malformed
rows (blank pattern or blank replacement on a non-blank row) are counted
failed again, and every well-formed row is skipped, so skipped = total
exactly when the file has no malformed rows. -/
theorem C8_merge_second_restore_amended (db db1 db2 : List GlobalDictionary)
    (rows : List XRow) (c1 c2 : RestoreCounts) (mode : Str)
    (hmode : mode ≠ "replace".data)
    (h1 : restore_global_dictionary_from_backup db rows mode = .ok (db1, c1))
    (h2 : restore_global_dictionary_from_backup db1 rows mode
      = .ok (db2, c2)) :
    c2.added = 0 ∧ c2.skipped + c2.failed = c2.total := by
  cases rows with
  | nil => simp [restore_global_dictionary_from_backup] at h1
  | cons header body =>
    simp only [restore_global_dictionary_from_backup] at h1 h2
    by_cases hv : validate_header header = false
    · rw [if_pos hv] at h1
      simp at h1
    · rw [if_neg hv] at h1 h2
      simp only [Except.ok.injEq, Prod.mk.injEq] at h1 h2
      have hinit2 : restoreInit db1 mode
          = ⟨db1, db1.map (fun e => e.pattern), ⟨0, 0, 0, 0⟩⟩ := by
        unfold restoreInit
        rw [if_neg hmode]
      have hex : (body.foldl restore_row (restoreInit db mode)).existing
          = db1.map (fun e => e.pattern) := by
        have h := existingOk_fold body (restoreInit db mode)
          (existingOk_restoreInit db mode)
        unfold existingOk at h
        rw [h, h1.1]
      have hall : ∀ r ∈ body, validRow r →
          cellToStr r.c1 ∈ (restoreInit db1 mode).existing := by
        intro r hr hvr
        rw [hinit2]
        rw [← hex]
        exact pattern_mem_after_fold body (restoreInit db mode) r hr hvr
      have hadd := (fold_all_existing_no_add body (restoreInit db1 mode)
        hall).1
      have hco := countsOk_fold body (restoreInit db1 mode)
        (countsOk_restoreInit db1 mode)
      unfold countsOk at hco
      rw [h2.2] at hco hadd
      have hz : (restoreInit db1 mode).counts.added = 0 := by
        rw [hinit2]
      rw [hz] at hadd
      exact ⟨hadd, by omega⟩

theorem C8_merge_second_restore_amended_witness :
    (RestoreCounts.mk 1 0 1 0).added = 0
    ∧ (RestoreCounts.mk 1 0 1 0).skipped + (RestoreCounts.mk 1 0 1 0).failed
        = (RestoreCounts.mk 1 0 1 0).total :=
  C8_merge_second_restore_amended [] [⟨"a".data, "b".data, none⟩]
    [⟨"a".data, "b".data, none⟩]
    [⟨some "pattern".data, some "replacement".data, some "created_at".data,
        some "created_by".data⟩,
      ⟨some "a".data, some "b".data, none, none⟩]
    ⟨1, 1, 0, 0⟩ ⟨1, 0, 1, 0⟩ "merge".data
    (by decide) (by decide) (by decide)

/-!
Embedding of services/backup.create_global_dictionary_backup (the
retention behaviour).  The backup directory is a duplicate-free list of
file names; _parse_backup_datetime (the naming-convention check plus
strptime) is taken as a function parameter parse into abstract instants
(Nat), with the unreachable datetime.min fallback modelled as 0, the
least instant; saving the workbook puts the new name into the directory
(overwriting keeps the name set); Path.unlink(missing_ok=True) removes a
name when present and never fails.  The serialized rows do not affect
retention and are not modelled.
-/

/-- Path.unlink(missing_ok=True): total, a no-op on a missing name. -/
def unlink_missing_ok (dir : List Str) (name : Str) : List Str :=
  dir.erase name

/-- workbook.save(backup_path): the new name appears in the directory. -/
def insertFile (dir : List Str) (name : Str) : List Str :=
  if name ∈ dir then dir else dir ++ [name]

/-- Sort key of a backup file name: its parsed instant, the fallback
datetime.min (never taken on a name the listing accepted) as 0. -/
def backupKey (parse : Str → Option Nat) (name : Str) : Nat :=
  (parse name).getD 0

/-- Embedding of backup._list_backup_files: the names the parser
accepts. -/
def list_backup_files (parse : Str → Option Nat) (dir : List Str) :
    List Str :=
  dir.filter (fun n => (parse n).isSome)

/-- backups.sort(key=..., reverse=True): stable descending sort by
parsed instant. -/
def sortBackupsDesc (parse : Str → Option Nat) (files : List Str) :
    List Str :=
  files.mergeSort (fun a b => decide (backupKey parse b ≤ backupKey parse a))

/-- Embedding of the retention part of create_global_dictionary_backup:
write the new file, list the parseable backup files, sort them descending
by instant, keep the first three, unlink the rest, and return the final
directory together with the kept and deleted counts. -/
def create_global_dictionary_backup (parse : Str → Option Nat)
    (dir : List Str) (newName : Str) : List Str × Nat × Nat :=
  (((sortBackupsDesc parse
        (list_backup_files parse (insertFile dir newName))).drop 3).foldl
      unlink_missing_ok (insertFile dir newName),
    ((sortBackupsDesc parse
        (list_backup_files parse (insertFile dir newName))).take 3).length,
    ((sortBackupsDesc parse
        (list_backup_files parse (insertFile dir newName))).drop 3).length)

theorem insertFile_nodup (dir : List Str) (n : Str) (h : dir.Nodup) :
    (insertFile dir n).Nodup := by
  unfold insertFile
  split_ifs with hm
  · exact h
  · refine List.Nodup.append h (List.nodup_singleton n) ?_
    intro a ha hn
    rw [List.mem_singleton] at hn
    subst hn
    exact hm ha

theorem foldl_unlink_eq_diff (dir del : List Str) :
    del.foldl unlink_missing_ok dir = dir.diff del :=
  (List.diff_eq_foldl dir del).symm

theorem sortBackupsDesc_perm (parse : Str → Option Nat)
    (files : List Str) : (sortBackupsDesc parse files).Perm files :=
  List.mergeSort_perm files _

theorem sortBackupsDesc_pairwise (parse : Str → Option Nat)
    (files : List Str) :
    List.Pairwise (fun a b => backupKey parse b ≤ backupKey parse a)
      (sortBackupsDesc parse files) := by
  have h := @List.sorted_mergeSort Str
    (fun a b => decide (backupKey parse b ≤ backupKey parse a))
    (by
      intro a b c hab hbc
      simp only [decide_eq_true_eq] at hab hbc ⊢
      omega)
    (by
      intro a b
      simp [Nat.le_total])
    files
  refine h.imp ?_
  intro a b hab
  simpa using hab

theorem nodup_mem_diff_iff : ∀ (l₂ l₁ : List Str) (a : Str), l₁.Nodup →
    (a ∈ l₁.diff l₂ ↔ a ∈ l₁ ∧ a ∉ l₂) := by
  intro l₂
  induction l₂ with
  | nil =>
    intro l₁ a h
    simp [List.diff_nil]
  | cons b bs ih =>
    intro l₁ a h
    rw [List.diff_cons, ih (l₁.erase b) a (List.Nodup.erase b h),
      List.Nodup.mem_erase_iff h]
    simp only [List.mem_cons]
    constructor
    · rintro ⟨⟨hne, hmem⟩, hnbs⟩
      exact ⟨hmem, by rintro (hc | hc); exacts [hne hc, hnbs hc]⟩
    · rintro ⟨hmem, hnot⟩
      exact ⟨⟨fun hc => hnot (Or.inl hc), hmem⟩, fun hc => hnot (Or.inr hc)⟩

theorem topk_retention (m : Str → Bool) (key : Str → Nat)
    (dir1 sorted : List Str) (k : Nat) (hd1 : dir1.Nodup)
    (hperm : sorted.Perm (dir1.filter m))
    (hpw : List.Pairwise (fun a b => key b ≤ key a) sorted)
    (hinj : ∀ a ∈ dir1.filter m, ∀ b ∈ dir1.filter m,
      key a = key b → a = b) :
    ((dir1.diff (sorted.drop k)).filter m).length
        = min k (dir1.filter m).length
    ∧ (∀ a b, a ∈ (dir1.diff (sorted.drop k)).filter m →
        b ∈ dir1.filter m → b ∉ dir1.diff (sorted.drop k) →
        key b < key a)
    ∧ (sorted.drop k).length = (dir1.filter m).length - k
    ∧ (sorted.take k).length = min k (dir1.filter m).length := by
  have hbnod : (dir1.filter m).Nodup := List.Nodup.filter m hd1
  have hsnod : sorted.Nodup := (hperm.symm).nodup hbnod
  have hsplit : sorted.take k ++ sorted.drop k = sorted :=
    List.take_append_drop k sorted
  have hdisj : (sorted.take k).Disjoint (sorted.drop k) := by
    apply List.disjoint_of_nodup_append
    rw [hsplit]
    exact hsnod
  have hkeepnod : (sorted.take k).Nodup := by
    have h := hsnod
    rw [← hsplit] at h
    exact (List.nodup_append.mp h).1
  have hpwsplit : ∀ a ∈ sorted.take k, ∀ b ∈ sorted.drop k,
      key b ≤ key a := by
    have h := hpw
    rw [← hsplit] at h
    exact (List.pairwise_append.mp h).2.2
  have hmemdiff : ∀ n : Str, n ∈ dir1.diff (sorted.drop k)
      ↔ n ∈ dir1 ∧ n ∉ sorted.drop k :=
    fun n => nodup_mem_diff_iff (sorted.drop k) dir1 n hd1
  have hmemsorted : ∀ n : Str, n ∈ sorted ↔ n ∈ dir1.filter m :=
    fun n => hperm.mem_iff
  have hmemkeep : ∀ n : Str,
      n ∈ (dir1.diff (sorted.drop k)).filter m ↔ n ∈ sorted.take k := by
    intro n
    rw [List.mem_filter]
    constructor
    · rintro ⟨hdiff, hm⟩
      rw [hmemdiff] at hdiff
      have hnb : n ∈ dir1.filter m := List.mem_filter.mpr ⟨hdiff.1, hm⟩
      have hns : n ∈ sorted := (hmemsorted n).mpr hnb
      rw [← hsplit] at hns
      rcases List.mem_append.mp hns with h | h
      · exact h
      · exact absurd h hdiff.2
    · intro hk
      have hns : n ∈ sorted := by
        rw [← hsplit]
        exact List.mem_append.mpr (Or.inl hk)
      have hnb : n ∈ dir1.filter m := (hmemsorted n).mp hns
      exact ⟨(hmemdiff n).mpr ⟨(List.mem_filter.mp hnb).1,
          fun hdel => hdisj hk hdel⟩,
        (List.mem_filter.mp hnb).2⟩
  have hfnod : ((dir1.diff (sorted.drop k)).filter m).Nodup :=
    List.Nodup.filter m ((List.diff_sublist dir1 (sorted.drop k)).nodup hd1)
  have hpermkeep : ((dir1.diff (sorted.drop k)).filter m).Perm
      (sorted.take k) :=
    (List.perm_ext_iff_of_nodup hfnod hkeepnod).mpr hmemkeep
  have hlensorted : sorted.length = (dir1.filter m).length :=
    hperm.length_eq
  refine ⟨?_, ?_, ?_, ?_⟩
  · rw [hpermkeep.length_eq, List.length_take, hlensorted]
  · intro a b ha hb hbnot
    have hak : a ∈ sorted.take k := (hmemkeep a).mp ha
    have hbdel : b ∈ sorted.drop k := by
      by_contra hbd
      exact hbnot ((hmemdiff b).mpr ⟨(List.mem_filter.mp hb).1, hbd⟩)
    have hle : key b ≤ key a := hpwsplit a hak b hbdel
    have hane : a ≠ b := by
      intro heq
      subst heq
      exact hdisj hak hbdel
    have hamem : a ∈ dir1.filter m := by
      have hs : a ∈ sorted := by
        rw [← hsplit]
        exact List.mem_append.mpr (Or.inl hak)
      exact (hmemsorted a).mp hs
    have hkne : key a ≠ key b := fun hk => hane (hinj a hamem b hb hk)
    omega
  · rw [List.length_drop, hlensorted]
  · rw [List.length_take, hlensorted]

/-- C3: after createBackup the directory's files matching the naming
convention number min(3, available) and are exactly the most recent by
parsed instant: every matching file that was present and got deleted is
strictly older than every matching file that remains (instants assumed
pairwise distinct, as in the spec's retention property); the returned
deleted count is the number of matching files beyond the 3 most recent,
the kept count is min 3 available; and unlinking an already-missing name
is a total no-op, so it cannot fail the operation. -/
theorem C3_backup_retention (parse : Str → Option Nat) (dir : List Str)
    (newName : Str) (hnd : dir.Nodup)
    (_hnew : (parse newName).isSome = true)
    (hinj : ∀ a ∈ list_backup_files parse (insertFile dir newName),
      ∀ b ∈ list_backup_files parse (insertFile dir newName),
        backupKey parse a = backupKey parse b → a = b) :
    ((list_backup_files parse
        (create_global_dictionary_backup parse dir newName).1).length
      = min 3 (list_backup_files parse (insertFile dir newName)).length)
    ∧ (∀ a b,
        a ∈ list_backup_files parse
            (create_global_dictionary_backup parse dir newName).1 →
        b ∈ list_backup_files parse (insertFile dir newName) →
        b ∉ (create_global_dictionary_backup parse dir newName).1 →
        backupKey parse b < backupKey parse a)
    ∧ (create_global_dictionary_backup parse dir newName).2.2
        = (list_backup_files parse (insertFile dir newName)).length - 3
    ∧ (create_global_dictionary_backup parse dir newName).2.1
        = min 3 (list_backup_files parse (insertFile dir newName)).length
    ∧ (∀ (d : List Str) (n : Str), n ∉ d → unlink_missing_ok d n = d) := by
  have hd1 : (insertFile dir newName).Nodup := insertFile_nodup dir newName hnd
  have hcore := topk_retention (fun n => (parse n).isSome)
    (backupKey parse) (insertFile dir newName)
    (sortBackupsDesc parse (list_backup_files parse (insertFile dir newName)))
    3 hd1
    (sortBackupsDesc_perm parse
      (list_backup_files parse (insertFile dir newName)))
    (sortBackupsDesc_pairwise parse
      (list_backup_files parse (insertFile dir newName)))
    hinj
  simp only [create_global_dictionary_backup, foldl_unlink_eq_diff]
  simp only [list_backup_files] at hcore ⊢
  exact ⟨hcore.1, hcore.2.1, hcore.2.2.1, hcore.2.2.2,
    fun d n h => List.erase_of_not_mem h⟩

theorem C3_backup_retention_witness :
    ((list_backup_files
        (fun s => if s = ['a'] then some 1 else
          if s = ['b'] then some 2 else none)
        (create_global_dictionary_backup
          (fun s => if s = ['a'] then some 1 else
            if s = ['b'] then some 2 else none)
          [['a'], ['x']] ['b']).1).length
      = min 3 (list_backup_files
          (fun s => if s = ['a'] then some 1 else
            if s = ['b'] then some 2 else none)
          (insertFile [['a'], ['x']] ['b'])).length) :=
  (C3_backup_retention
    (fun s => if s = ['a'] then some 1 else
      if s = ['b'] then some 2 else none)
    [['a'], ['x']] ['b'] (by decide) (by decide) (by decide)).1
